import Mathlib

/-!
Shallow embedding of the two review harvesters of this repository:
the TrustPilot HTML notebook (function get_business_reviews together
with its coordinator loop and final save cell) and the BoardGameGeek
API notebook (functions checkNumericRange, getData, flushBuffer and
the main loop with its reprocess filter and checkpoint threshold).

External collaborators are represented by parameters and by explicit
outcome types, translated from the way the notebooks call them:

* the langdetect detector is a parameter returning either a language
  code, a LangDetectException, or any other exception (the notebooks
  catch only LangDetectException around detect calls);
* each network fetch together with the parse of its response is one
  element of an input list of outcomes, consumed one per request; a
  run that would issue more requests than the list provides is
  reported as out of outcomes rather than forced to terminate;
* Python float parsing inside checkNumericRange is a parameter from
  strings to optional rationals (none when float raises);
* removeMarkup is a parameter from strings to strings standing for
  the regex cleanup applied to comment text before detection.
-/

/-- Outcome of one call of langdetect detect on a string: a detected
language code, a LangDetectException, or any other exception. -/
inductive DetectResult where
  | lang (code : String)
  | langExc
  | otherExc
deriving DecidableEq

/-- Whitespace test used to model Python str.strip. -/
def isSpaceChar (c : Char) : Bool :=
  c = ' ' || c = '\t' || c = '\n' || c = '\r'

/-- Model of Python str.strip: drop surrounding whitespace. -/
def pyStrip (s : String) : String :=
  String.mk (((s.toList.dropWhile isSpaceChar).reverse.dropWhile isSpaceChar).reverse)

/-- One review article found on a TrustPilot page, as seen by the three
find calls in get_business_reviews: the rating attribute of the rating
element (none when that element is absent), and the text of the title
and body elements (none when the element is absent). -/
structure TPReview where
  rating : Option String
  title : Option String
  text : Option String
deriving DecidableEq

/-- A stored TrustPilot record, as appended to reviews_data by
get_business_reviews. -/
structure TPRec where
  rating : String
  review_title : Option String
  review_text : Option String
deriving DecidableEq

section TPDefs

variable (detect : String → DetectResult)

/-- Evaluation of the right disjunct txt and detect txt equals en of the
admission condition in get_business_reviews, with Python truthiness
(None and the empty string are falsy) and exception propagation. -/
def evalRight (txt : Option String) : Except Unit Bool :=
  match txt with
  | none => Except.ok false
  | some t =>
    if t = "" then Except.ok false
    else
      match detect t with
      | DetectResult.lang l => Except.ok (l == "en")
      | DetectResult.langExc => Except.error ()
      | DetectResult.otherExc => Except.error ()

/-- Evaluation of the full admission condition of get_business_reviews,
namely the disjunction of the title test and the body test, with Python
left-to-right evaluation and exception propagation: an exception raised
while detecting the title aborts the whole condition. -/
def evalAdmitCond (ttl txt : Option String) : Except Unit Bool :=
  match ttl with
  | none => evalRight detect txt
  | some t =>
    if t = "" then evalRight detect txt
    else
      match detect t with
      | DetectResult.lang l =>
        if l = "en" then Except.ok true else evalRight detect txt
      | DetectResult.langExc => Except.error ()
      | DetectResult.otherExc => Except.error ()

/-- Processing of one review inside the review loop of
get_business_reviews: the record is kept only when the rating element is
present, at least one of the title and body elements is present, and the
admission condition evaluates to true; a LangDetectException and any
other exception both leave the loop body without appending, so they
reject the record. -/
def admitTP (rv : TPReview) : Option TPRec :=
  match rv.rating with
  | none => none
  | some rating =>
    if rv.text.isSome || rv.title.isSome then
      let ttl := Option.map pyStrip rv.title
      let txt := Option.map pyStrip rv.text
      match evalAdmitCond detect ttl txt with
      | Except.ok true => some { rating := rating, review_title := ttl, review_text := txt }
      | _ => none
    else none

/-- Outcome of one loop iteration of get_business_reviews: either the
fetch or parse raised (a requests exception, or any other exception,
both of which break out of the loop), or a page was obtained carrying
the optional business name element text, the list of review articles
and whether a next page link with an href is present. -/
inductive TPPage where
  | fetchError
  | page (nameElem : Option String) (reviews : List TPReview) (next : Bool)
deriving DecidableEq

/-- The dict returned by get_business_reviews. -/
structure TPRes where
  business_name : String
  reviews : List TPRec
deriving DecidableEq

/-- Result of a run of get_business_reviews: out of modelled outcomes,
an UnboundLocalError raised at the return statement because
business_name was never assigned, or a normal return of the dict. -/
inductive TPRun where
  | outOfPages
  | raises
  | returns (r : TPRes)
deriving DecidableEq

/-- The return statement of get_business_reviews: returns the dict when
business_name was assigned at some point, and raises UnboundLocalError
otherwise. -/
def finishTP (nm : Option String) (acc : List TPRec) : TPRun :=
  match nm with
  | some n => TPRun.returns { business_name := n, reviews := acc }
  | none => TPRun.raises

/-- The page loop of get_business_reviews. State: the captured business
name (none while unassigned) and the accumulated reviews_data. Each
iteration consumes one fetch outcome; the name is recaptured on every
page for which reviews_data is still empty; admitted records of the page
are appended; the loop continues exactly when a next page link exists.
The second component counts fetch attempts. -/
def runTPAux : List TPPage → Option String → List TPRec → TPRun × Nat
  | [], _, _ => (TPRun.outOfPages, 0)
  | TPPage.fetchError :: _, nm, acc => (finishTP nm acc, 1)
  | TPPage.page nameElem revs next :: rest, nm, acc =>
    let nm2 :=
      if acc.isEmpty then
        match nameElem with
        | some s => some (pyStrip s)
        | none => nm
      else nm
    let acc2 := acc ++ revs.filterMap (admitTP detect)
    if next then
      let r := runTPAux rest nm2 acc2
      (r.1, r.2 + 1)
    else (finishTP nm2 acc2, 1)

/-- Entry point of the TrustPilot review driver: business_name starts
unassigned and reviews_data starts empty. -/
def get_business_reviews (pages : List TPPage) : TPRun × Nat :=
  runTPAux detect pages none []

end TPDefs

/-- A comment element of a BoardGameGeek API page: the rating attribute
(none when absent) and the element text (none when the element has no
text). -/
structure BGGComment where
  rating : Option String
  text : Option String
deriving DecidableEq

/-- A stored BoardGameGeek record, as appended to reviewData by
getData. -/
structure BGGRec where
  rating : String
  review_text : String
deriving DecidableEq

/-- Value of the gameName variable of getData: the empty string it is
initialised to, or the list of strings produced by the xpath text query
when the name is captured. -/
inductive NameVal where
  | empty
  | captured (ns : List String)
deriving DecidableEq

/-- The dict returned by getData on its normal path. -/
structure BGGRes where
  game_name : NameVal
  reviews : List BGGRec
deriving DecidableEq

/-- Outcome of one request issued by getData: the fetch raised a
requests exception (caught by the outer handler), the response had a
non success status code, the page body raised while being parsed, or
the page parsed giving the xpath name query result and the comment
elements. -/
inductive APIOutcome where
  | transportExc
  | badStatus
  | pageExc
  | parsed (names : List String) (comments : List BGGComment)
deriving DecidableEq

/-- Observable actions of getData, for the temporal claims: issuing the
request for a given page number, and the inter page rate limit wait. -/
inductive BGGAction where
  | request (pg : Nat)
  | sleep
deriving DecidableEq

/-- Status of a run of getData: out of modelled outcomes, or the Python
return value, which is None exactly on the outer exception handler path
and on an absent gameID. -/
inductive BGGStatus where
  | outOfOutcomes
  | ret (r : Option BGGRes)
deriving DecidableEq

section BGGDefs

variable (pf : String → Option ℚ) (detect : String → DetectResult) (rmk : String → String)

/-- Translation of checkNumericRange: convert the value to a float and
test the chained comparison; any exception, including the TypeError on
an absent value and the ValueError on a non numeric string, yields
false. The float conversion is the parameter pf. -/
def checkNumericRange (val : Option String) (min max : ℚ) : Bool :=
  match val with
  | none => false
  | some s =>
    match pf s with
    | none => false
    | some num => decide (min ≤ num) && decide (num ≤ max)

/-- The comment loop of getData over the comments of one parsed page.
Returns the records appended by the loop and whether the loop raised an
exception that escapes to the page level handler: that happens when
detect is reached on absent comment text (removeMarkup returns the
absent value unchanged and detect then raises a TypeError) and when
detect raises anything other than a LangDetectException; a
LangDetectException only skips the comment, and a rating that fails
checkNumericRange silently skips the comment. Records appended before
the escaping exception are kept. -/
def processComments : List BGGComment → List BGGRec × Bool
  | [] => ([], false)
  | c :: rest =>
    if checkNumericRange pf c.rating 1 10 then
      match c.text with
      | none => ([], true)
      | some t =>
        match detect (rmk t) with
        | DetectResult.otherExc => ([], true)
        | DetectResult.langExc => processComments rest
        | DetectResult.lang l =>
          if l = "en" then
            let pr := processComments rest
            ({ rating := c.rating.getD "", review_text := rmk t } :: pr.1, pr.2)
          else processComments rest
    else processComments rest

/-- The request loop of getData. State: page counter pgCount, the
request error counter (which is never reset), the captured gameName and
the accumulated reviewData. Each iteration consumes one outcome and
emits the request action; a page with comments also emits the rate
limit sleep after processing. The error counter reaching 3 ends the
loop with the gathered data; a transport exception returns None via the
outer handler. -/
def runBGGAux : List APIOutcome → Nat → Nat → NameVal → List BGGRec → BGGStatus × List BGGAction
  | [], _, _, _, _ => (BGGStatus.outOfOutcomes, [])
  | APIOutcome.transportExc :: _, pg, _, _, _ => (BGGStatus.ret none, [BGGAction.request pg])
  | APIOutcome.badStatus :: rest, pg, err, nm, acc =>
    if 3 ≤ err + 1 then
      (BGGStatus.ret (some { game_name := nm, reviews := acc }), [BGGAction.request pg])
    else
      let r := runBGGAux rest pg (err + 1) nm acc
      (r.1, BGGAction.request pg :: r.2)
  | APIOutcome.pageExc :: rest, pg, err, nm, acc =>
    if 3 ≤ err + 1 then
      (BGGStatus.ret (some { game_name := nm, reviews := acc }), [BGGAction.request pg])
    else
      let r := runBGGAux rest pg (err + 1) nm acc
      (r.1, BGGAction.request pg :: r.2)
  | APIOutcome.parsed names comments :: rest, pg, err, nm, acc =>
    if 0 < comments.length then
      let nm2 := if pg = 1 then NameVal.captured names else nm
      let pr := processComments pf detect rmk comments
      let acc2 := acc ++ pr.1
      if pr.2 then
        if 3 ≤ err + 1 then
          (BGGStatus.ret (some { game_name := nm2, reviews := acc2 }), [BGGAction.request pg])
        else
          let r := runBGGAux rest pg (err + 1) nm2 acc2
          (r.1, BGGAction.request pg :: r.2)
      else
        let r := runBGGAux rest (pg + 1) err nm2 acc2
        (r.1, BGGAction.request pg :: BGGAction.sleep :: r.2)
    else (BGGStatus.ret (some { game_name := nm, reviews := acc }), [BGGAction.request pg])

/-- Entry point of getData: an absent gameID returns None at once;
otherwise the loop starts at page 1 with error counter 0, gameName the
empty string and reviewData empty. -/
def getData (gameID : Option Nat) (outs : List APIOutcome) : BGGStatus × List BGGAction :=
  match gameID with
  | none => (BGGStatus.ret none, [])
  | some _ => runBGGAux pf detect rmk outs 1 0 NameVal.empty []

end BGGDefs

section CoordDefs

variable (detect : String → DetectResult)

/-- The TrustPilot coordinator loop over the business urls: each entity
is handed to get_business_reviews; a raised exception there is not
caught by the loop and crashes the run; a returned dict is appended to
all_reviews exactly when its review list is non empty. Returns the
final buffer and whether the run crashed. -/
def runTPCoordAux : List (List TPPage) → List TPRes → List TPRes × Bool
  | [], buf => (buf, false)
  | ent :: rest, buf =>
    match (get_business_reviews detect ent).1 with
    | TPRun.raises => (buf, true)
    | TPRun.outOfPages => runTPCoordAux rest buf
    | TPRun.returns r =>
      runTPCoordAux rest (if 0 < r.reviews.length then buf ++ [r] else buf)

/-- Observable result of the whole TrustPilot notebook run: the buffer,
the sequence of buffer snapshots written to the output file, and the
crash flag. The only write is the final save cell, which does not run
when the loop crashed. -/
structure TPCoordRes where
  buffer : List TPRes
  flushes : List (List TPRes)
  crashed : Bool
deriving DecidableEq

/-- The TrustPilot notebook run: the coordinator loop followed, on the
non crashed path, by the single json dump of all_reviews. -/
def runTPCoord (ents : List (List TPPage)) : TPCoordRes :=
  let p := runTPCoordAux detect ents []
  { buffer := p.1, flushes := if p.2 then [] else [p.1], crashed := p.2 }

end CoordDefs

/-- One row of the filtered and sorted game table: the game id and the
fetch outcomes its getData run will consume. -/
structure BGGEntity where
  id : Nat
  outs : List APIOutcome
deriving DecidableEq

/-- The skip condition of the reprocess filter in the main loop of the
BoardGameGeek notebook. -/
def bggSkip (reprocess : Bool) (reprocessIndex : Nat) (reprocessIDs : List Nat)
    (index : Nat) (gameID : Nat) : Bool :=
  reprocess && (decide (index < reprocessIndex) || !(reprocessIDs.contains gameID))

/-- Observable state of the BoardGameGeek main loop: the all_reviews
buffer, the buffer snapshots flushed so far, the ids for which the loop
entered processing, and the checkCount against the flush threshold. -/
structure BGGCoordSt where
  buffer : List BGGRes
  flushes : List (List BGGRes)
  processed : List Nat
  checkCount : Nat
deriving DecidableEq

section BGGCoordDefs

variable (pf : String → Option ℚ) (detect : String → DetectResult) (rmk : String → String)
variable (reprocess : Bool) (reprocessIndex : Nat) (reprocessIDs : List Nat)
variable (checkThreshold : Nat)

/-- The BoardGameGeek main loop: entities failing the reprocess filter
are skipped; a None result from getData skips the entity; a dict with a
non empty review list is appended to all_reviews, checkCount grows by
the number of its reviews, and on reaching the threshold the whole
buffer is flushed and checkCount reset. A run of getData that exhausts
its modelled outcomes is treated like a processed entity with no effect
on the buffer. -/
def runBGGCoordAux : List BGGEntity → Nat → List BGGRes → Nat → BGGCoordSt
  | [], _, buf, cc =>
    { buffer := buf, flushes := [], processed := [], checkCount := cc }
  | e :: rest, index, buf, cc =>
    if bggSkip reprocess reprocessIndex reprocessIDs index e.id then
      runBGGCoordAux rest (index + 1) buf cc
    else
      let st :=
        match (getData pf detect rmk (some e.id) e.outs).1 with
        | BGGStatus.outOfOutcomes => runBGGCoordAux rest (index + 1) buf cc
        | BGGStatus.ret none => runBGGCoordAux rest (index + 1) buf cc
        | BGGStatus.ret (some gr) =>
          if 0 < gr.reviews.length then
            let buf2 := buf ++ [gr]
            let cc2 := cc + gr.reviews.length
            if checkThreshold ≤ cc2 then
              let s := runBGGCoordAux rest (index + 1) buf2 0
              { s with flushes := buf2 :: s.flushes }
            else runBGGCoordAux rest (index + 1) buf2 cc2
          else runBGGCoordAux rest (index + 1) buf cc
      { st with processed := e.id :: st.processed }

/-- The BoardGameGeek notebook run: the main loop starting at index 0
with empty buffer and zero checkCount, followed by the unconditional
final flushBuffer of the wrap up cell. -/
def runBGGCoord (ents : List BGGEntity) : BGGCoordSt :=
  let s := runBGGCoordAux pf detect rmk reprocess reprocessIndex reprocessIDs
    checkThreshold ents 0 [] 0
  { s with flushes := s.flushes ++ [s.buffer] }

end BGGCoordDefs

/-- Detector that classifies every string as English; used for concrete
runs. -/
def detEn : String → DetectResult := fun _ => DetectResult.lang "en"

/-- Identity markup cleanup; used for concrete runs. -/
def rmkId : String → String := fun s => s

/-- Float conversion used for concrete runs: parses the few rating
strings appearing in the inputs of this file. -/
def pfEx : String → Option ℚ := fun s =>
  if s = "7" then some 7
  else if s = "11" then some 11
  else if s = "5" then some 5
  else none


/-- Detector that raises a LangDetectException exactly on the string xx
and classifies everything else as English; used for concrete runs. -/
def det6 : String → DetectResult := fun s =>
  if s = "xx" then DetectResult.langExc else DetectResult.lang "en"

/-- Detector that classifies the string tt as French and everything
else as English; used for concrete runs. -/
def detFr : String → DetectResult := fun s =>
  if s = "tt" then DetectResult.lang "fr" else DetectResult.lang "en"

/-- A concrete English review with a rating and a title; used for
concrete runs. -/
def tpReviewGS : TPReview :=
  { rating := some "5", title := some "Great service", text := none }

/-- A concrete two business TrustPilot input in which each business
page yields one accepted review; used for concrete runs. -/
def c4ents : List (List TPPage) :=
  [[TPPage.page (some "BizA") [tpReviewGS] false],
   [TPPage.page (some "BizB") [tpReviewGS] false]]

/-! Helper lemmas about the drivers, shared by several of the claim
theorems below. -/

/-- Every loop iteration of getData begins by issuing the request for
the current page number, whatever the outcome of that request is. -/
theorem runBGGAux_trace_head (pf : String → Option ℚ) (detect : String → DetectResult)
    (rmk : String → String) (o : APIOutcome) (rest : List APIOutcome) (pg err : Nat)
    (nm : NameVal) (acc : List BGGRec) :
    ∃ t, (runBGGAux pf detect rmk (o :: rest) pg err nm acc).2 = BGGAction.request pg :: t := by
  cases o with
  | transportExc => exact ⟨[], rfl⟩
  | badStatus =>
    by_cases h3 : 3 ≤ err + 1
    · exact ⟨[], by simp [runBGGAux, h3]⟩
    · exact ⟨(runBGGAux pf detect rmk rest pg (err + 1) nm acc).2, by simp [runBGGAux, h3]⟩
  | pageExc =>
    by_cases h3 : 3 ≤ err + 1
    · exact ⟨[], by simp [runBGGAux, h3]⟩
    · exact ⟨(runBGGAux pf detect rmk rest pg (err + 1) nm acc).2, by simp [runBGGAux, h3]⟩
  | parsed names comments =>
    by_cases hc : 0 < comments.length
    · by_cases hp : (processComments pf detect rmk comments).2 = true
      · by_cases h3 : 3 ≤ err + 1
        · exact ⟨[], by simp [runBGGAux, hc, hp, h3]⟩
        · exact ⟨(runBGGAux pf detect rmk rest pg (err + 1)
            (if pg = 1 then NameVal.captured names else nm)
            (acc ++ (processComments pf detect rmk comments).1)).2,
            by simp [runBGGAux, hc, hp, h3]⟩
      · exact ⟨BGGAction.sleep :: (runBGGAux pf detect rmk rest (pg + 1) err
            (if pg = 1 then NameVal.captured names else nm)
            (acc ++ (processComments pf detect rmk comments).1)).2,
            by simp [runBGGAux, hc, hp]⟩
    · exact ⟨[], by simp [runBGGAux, hc]⟩

/-- Once the business name has been assigned, get_business_reviews can
no longer raise at its return statement. -/
theorem tp_returns_of_named (detect : String → DetectResult) :
    ∀ (outs : List TPPage) (n : String) (acc : List TPRec),
      (runTPAux detect outs (some n) acc).1 ≠ TPRun.raises := by
  intro outs
  induction outs with
  | nil => intro n acc; simp [runTPAux]
  | cons o rest ih =>
    intro n acc
    cases o with
    | fetchError => simp [runTPAux, finishTP]
    | page nameElem revs next =>
      rcases next with _ | _ <;> rcases nameElem with _ | s <;>
        rcases acc with _ | ⟨a, as⟩ <;>
        simp [runTPAux, finishTP] <;> apply ih

/-- When no request raises a transport exception, getData never takes
the outer handler path, so it never returns None. -/
theorem bgg_ret_some_of_no_transport (pf : String → Option ℚ) (detect : String → DetectResult)
    (rmk : String → String) :
    ∀ (outs : List APIOutcome), (∀ o ∈ outs, o ≠ APIOutcome.transportExc) →
      ∀ (pg err : Nat) (nm : NameVal) (acc : List BGGRec),
        (runBGGAux pf detect rmk outs pg err nm acc).1 ≠ BGGStatus.ret none := by
  intro outs
  induction outs with
  | nil => intro _ pg err nm acc; simp [runBGGAux]
  | cons o rest ih =>
    intro h pg err nm acc
    have ho := h o (by simp)
    have hrest : ∀ x ∈ rest, x ≠ APIOutcome.transportExc := fun x hx => h x (by simp [hx])
    cases o with
    | transportExc => exact absurd rfl ho
    | badStatus =>
      by_cases h3 : 3 ≤ err + 1
      · simp [runBGGAux, h3]
      · simp only [runBGGAux, h3, if_false]
        exact ih hrest pg (err + 1) nm acc
    | pageExc =>
      by_cases h3 : 3 ≤ err + 1
      · simp [runBGGAux, h3]
      · simp only [runBGGAux, h3, if_false]
        exact ih hrest pg (err + 1) nm acc
    | parsed names comments =>
      by_cases hc : 0 < comments.length
      · by_cases hp : (processComments pf detect rmk comments).2 = true
        · by_cases h3 : 3 ≤ err + 1
          · simp [runBGGAux, hc, hp, h3]
          · simp only [runBGGAux, hc, hp, h3, if_true, if_false, ite_true, ite_false]
            exact ih hrest pg (err + 1) _ _
        · simp only [runBGGAux, hc, hp, if_true, ite_true, Bool.false_eq_true, if_false,
            ite_false]
          exact ih hrest (pg + 1) err _ _
      · simp [runBGGAux, hc]

/-- From page 2 onward, the gameName capture guard of getData is never
taken again, so the name in the returned dict is whatever the state
held on entry. -/
theorem bgg_name_frozen (pf : String → Option ℚ) (detect : String → DetectResult)
    (rmk : String → String) :
    ∀ (outs : List APIOutcome) (pg err : Nat) (nm : NameVal) (acc : List BGGRec) (r : BGGRes),
      2 ≤ pg → (runBGGAux pf detect rmk outs pg err nm acc).1 = BGGStatus.ret (some r) →
      r.game_name = nm := by
  intro outs
  induction outs with
  | nil => intro pg err nm acc r hpg h; simp [runBGGAux] at h
  | cons o rest ih =>
    intro pg err nm acc r hpg h
    have hpg1 : ¬ pg = 1 := by omega
    cases o with
    | transportExc => simp [runBGGAux] at h
    | badStatus =>
      by_cases h3 : 3 ≤ err + 1
      · simp [runBGGAux, h3] at h
        rw [← h]
      · simp only [runBGGAux, h3, if_false] at h
        exact ih pg (err + 1) nm acc r hpg h
    | pageExc =>
      by_cases h3 : 3 ≤ err + 1
      · simp [runBGGAux, h3] at h
        rw [← h]
      · simp only [runBGGAux, h3, if_false] at h
        exact ih pg (err + 1) nm acc r hpg h
    | parsed names comments =>
      by_cases hc : 0 < comments.length
      · by_cases hp : (processComments pf detect rmk comments).2 = true
        · by_cases h3 : 3 ≤ err + 1
          · simp [runBGGAux, hc, hp, h3, hpg1] at h
            rw [← h]
          · simp only [runBGGAux, hc, hp, h3, hpg1, if_true, if_false, ite_true,
              ite_false] at h
            exact ih pg (err + 1) nm _ r hpg h
        · simp only [runBGGAux, hc, hp, hpg1, if_true, ite_true, Bool.false_eq_true,
            if_false, ite_false] at h
          exact ih (pg + 1) err nm _ r (by omega) h
      · simp [runBGGAux, hc] at h
        rw [← h]

/-- Once reviews_data is non empty, the business name recapture guard
of get_business_reviews is never taken again, so the name in the
returned dict is whatever the state held on entry. -/
theorem tp_name_frozen (detect : String → DetectResult) :
    ∀ (outs : List TPPage) (n : String) (acc : List TPRec) (r : TPRes),
      acc ≠ [] → (runTPAux detect outs (some n) acc).1 = TPRun.returns r →
      r.business_name = n := by
  intro outs
  induction outs with
  | nil => intro n acc r hacc h; simp [runTPAux] at h
  | cons o rest ih =>
    intro n acc r hacc h
    have hne : acc.isEmpty = false := by
      cases acc with
      | nil => exact absurd rfl hacc
      | cons a as => rfl
    cases o with
    | fetchError =>
      simp [runTPAux, finishTP] at h
      rw [← h]
    | page nameElem revs next =>
      have hacc2 : acc ++ revs.filterMap (admitTP detect) ≠ [] := by
        intro hh
        rw [List.append_eq_nil] at hh
        exact hacc hh.1
      cases next with
      | true =>
        simp only [runTPAux, hne, Bool.false_eq_true, if_false, ite_false, ite_true,
          if_true] at h
        exact ih n _ r hacc2 h
      | false =>
        simp only [runTPAux, hne, Bool.false_eq_true, if_false, ite_false, finishTP,
          TPRun.returns.injEq] at h
        rw [← h]

/-- The comment loop of getData raises nothing past the page level when
the detector never raises anything other than a LangDetectException and
every comment carries text. -/
theorem processComments_no_escape (pf : String → Option ℚ) (detect : String → DetectResult)
    (rmk : String → String) :
    ∀ (cs : List BGGComment), (∀ s, detect s ≠ DetectResult.otherExc) →
      (∀ c ∈ cs, c.text ≠ none) → (processComments pf detect rmk cs).2 = false := by
  intro cs
  induction cs with
  | nil => intro _ _; rfl
  | cons c rest ih =>
    intro hdet htext
    have hc := htext c (by simp)
    have hrest : ∀ x ∈ rest, x.text ≠ none := fun x hx => htext x (by simp [hx])
    by_cases hr : checkNumericRange pf c.rating 1 10 = true
    · cases ht : c.text with
      | none => exact absurd ht hc
      | some t =>
        cases hd : detect (rmk t) with
        | otherExc => exact absurd hd (hdet (rmk t))
        | langExc => simp [processComments, hr, ht, hd]; exact ih hdet hrest
        | lang l =>
          by_cases hl : l = "en"
          · simp [processComments, hr, ht, hd, hl]; exact ih hdet hrest
          · simp [processComments, hr, ht, hd, hl]; exact ih hdet hrest
    · simp [processComments, hr]; exact ih hdet hrest

/-- A LangDetectException raised while detecting the language of a
comment skips exactly that comment: the loop result on the remaining
comments is unchanged. -/
theorem processComments_skip_langExc (pf : String → Option ℚ) (detect : String → DetectResult)
    (rmk : String → String) (c : BGGComment) (rest : List BGGComment) (t : String)
    (ht : c.text = some t) (hd : detect (rmk t) = DetectResult.langExc) :
    processComments pf detect rmk (c :: rest) = processComments pf detect rmk rest := by
  by_cases hr : checkNumericRange pf c.rating 1 10 = true
  · simp [processComments, hr, ht, hd]
  · simp [processComments, hr]

/-- The entities entered by the BoardGameGeek main loop are exactly the
enumerated entities that pass the reprocess filter. -/
theorem bggCoordAux_processed (pf : String → Option ℚ) (detect : String → DetectResult)
    (rmk : String → String) (rp : Bool) (rIdx : Nat) (rIDs : List Nat) (th : Nat) :
    ∀ (ents : List BGGEntity) (index : Nat) (buf : List BGGRes) (cc : Nat),
      (runBGGCoordAux pf detect rmk rp rIdx rIDs th ents index buf cc).processed
        = ((ents.enumFrom index).filter
            (fun p => !(bggSkip rp rIdx rIDs p.1 p.2.id))).map (fun p => p.2.id) := by
  intro ents
  induction ents with
  | nil => intro index buf cc; simp [runBGGCoordAux, List.enumFrom]
  | cons e rest ih =>
    intro index buf cc
    by_cases hs : bggSkip rp rIdx rIDs index e.id = true
    · simp [runBGGCoordAux, hs, List.enumFrom, ih]
    · cases hg : (getData pf detect rmk (some e.id) e.outs).1 with
      | outOfOutcomes => simp [runBGGCoordAux, hs, hg, List.enumFrom, ih]
      | ret r =>
        cases r with
        | none => simp [runBGGCoordAux, hs, hg, List.enumFrom, ih]
        | some gr =>
          by_cases hl : 0 < gr.reviews.length
          · by_cases hth : th ≤ cc + gr.reviews.length
            · simp [runBGGCoordAux, hs, hg, hl, hth, List.enumFrom, ih]
            · simp [runBGGCoordAux, hs, hg, hl, hth, List.enumFrom, ih]
          · simp [runBGGCoordAux, hs, hg, hl, List.enumFrom, ih]

/-- The all_reviews buffer of the BoardGameGeek main loop only ever
grows by appending at the end. -/
theorem bggCoordAux_buffer_mono (pf : String → Option ℚ) (detect : String → DetectResult)
    (rmk : String → String) (rp : Bool) (rIdx : Nat) (rIDs : List Nat) (th : Nat) :
    ∀ (ents : List BGGEntity) (index : Nat) (buf : List BGGRes) (cc : Nat),
      ∃ t, (runBGGCoordAux pf detect rmk rp rIdx rIDs th ents index buf cc).buffer = buf ++ t := by
  intro ents
  induction ents with
  | nil => intro index buf cc; exact ⟨[], by simp [runBGGCoordAux]⟩
  | cons e rest ih =>
    intro index buf cc
    by_cases hs : bggSkip rp rIdx rIDs index e.id = true
    · obtain ⟨t, ht⟩ := ih (index + 1) buf cc
      exact ⟨t, by simp [runBGGCoordAux, hs, ht]⟩
    · cases hg : (getData pf detect rmk (some e.id) e.outs).1 with
      | outOfOutcomes =>
        obtain ⟨t, ht⟩ := ih (index + 1) buf cc
        exact ⟨t, by simp [runBGGCoordAux, hs, hg, ht]⟩
      | ret r =>
        cases r with
        | none =>
          obtain ⟨t, ht⟩ := ih (index + 1) buf cc
          exact ⟨t, by simp [runBGGCoordAux, hs, hg, ht]⟩
        | some gr =>
          by_cases hl : 0 < gr.reviews.length
          · by_cases hth : th ≤ cc + gr.reviews.length
            · obtain ⟨t, ht⟩ := ih (index + 1) (buf ++ [gr]) 0
              exact ⟨[gr] ++ t, by simp [runBGGCoordAux, hs, hg, hl, hth, ht]⟩
            · obtain ⟨t, ht⟩ := ih (index + 1) (buf ++ [gr]) (cc + gr.reviews.length)
              exact ⟨[gr] ++ t, by simp [runBGGCoordAux, hs, hg, hl, hth, ht]⟩
          · obtain ⟨t, ht⟩ := ih (index + 1) buf cc
            exact ⟨t, by simp [runBGGCoordAux, hs, hg, hl, ht]⟩

/-- Every buffer snapshot flushed by the BoardGameGeek main loop is a
prefix of the buffer the loop ends with: each flush writes the entire
buffer as of that moment and the buffer only grows afterwards. -/
theorem bggCoordAux_flush_prefix (pf : String → Option ℚ) (detect : String → DetectResult)
    (rmk : String → String) (rp : Bool) (rIdx : Nat) (rIDs : List Nat) (th : Nat) :
    ∀ (ents : List BGGEntity) (index : Nat) (buf : List BGGRes) (cc : Nat) (f : List BGGRes),
      f ∈ (runBGGCoordAux pf detect rmk rp rIdx rIDs th ents index buf cc).flushes →
      f <+: (runBGGCoordAux pf detect rmk rp rIdx rIDs th ents index buf cc).buffer := by
  intro ents
  induction ents with
  | nil => intro index buf cc f hf; simp [runBGGCoordAux] at hf
  | cons e rest ih =>
    intro index buf cc f hf
    by_cases hs : bggSkip rp rIdx rIDs index e.id = true
    · simp only [runBGGCoordAux, hs, if_true, ite_true] at hf ⊢
      exact ih (index + 1) buf cc f hf
    · cases hg : (getData pf detect rmk (some e.id) e.outs).1 with
      | outOfOutcomes =>
        simp only [runBGGCoordAux, hs, hg, Bool.false_eq_true, if_false, ite_false] at hf ⊢
        exact ih (index + 1) buf cc f hf
      | ret r =>
        cases r with
        | none =>
          simp only [runBGGCoordAux, hs, hg, Bool.false_eq_true, if_false, ite_false] at hf ⊢
          exact ih (index + 1) buf cc f hf
        | some gr =>
          by_cases hl : 0 < gr.reviews.length
          · by_cases hth : th ≤ cc + gr.reviews.length
            · simp only [runBGGCoordAux, hs, hg, hl, hth, Bool.false_eq_true, if_false,
                ite_false, if_true, ite_true, List.mem_cons] at hf ⊢
              rcases hf with rfl | hf
              · obtain ⟨t, ht⟩ := bggCoordAux_buffer_mono pf detect rmk rp rIdx rIDs th
                  rest (index + 1) (buf ++ [gr]) 0
                rw [ht]
                exact List.prefix_append _ _
              · exact ih (index + 1) (buf ++ [gr]) 0 f hf
            · simp only [runBGGCoordAux, hs, hg, hl, hth, Bool.false_eq_true, if_false,
                ite_false, if_true, ite_true] at hf ⊢
              exact ih (index + 1) (buf ++ [gr]) (cc + gr.reviews.length) f hf
          · simp only [runBGGCoordAux, hs, hg, hl, Bool.false_eq_true, if_false,
              ite_false] at hf ⊢
            exact ih (index + 1) buf cc f hf

/-- With a positive threshold, the count of accepted records since the
last flush stays below the threshold after every entity: reaching the
threshold always triggers a flush and a reset. -/
theorem bggCoordAux_cc_lt (pf : String → Option ℚ) (detect : String → DetectResult)
    (rmk : String → String) (rp : Bool) (rIdx : Nat) (rIDs : List Nat) (th : Nat)
    (hth : 0 < th) :
    ∀ (ents : List BGGEntity) (index : Nat) (buf : List BGGRes) (cc : Nat), cc < th →
      (runBGGCoordAux pf detect rmk rp rIdx rIDs th ents index buf cc).checkCount < th := by
  intro ents
  induction ents with
  | nil => intro index buf cc hcc; simpa [runBGGCoordAux] using hcc
  | cons e rest ih =>
    intro index buf cc hcc
    by_cases hs : bggSkip rp rIdx rIDs index e.id = true
    · simp only [runBGGCoordAux, hs, if_true, ite_true]
      exact ih (index + 1) buf cc hcc
    · cases hg : (getData pf detect rmk (some e.id) e.outs).1 with
      | outOfOutcomes =>
        simp only [runBGGCoordAux, hs, hg, Bool.false_eq_true, if_false, ite_false]
        exact ih (index + 1) buf cc hcc
      | ret r =>
        cases r with
        | none =>
          simp only [runBGGCoordAux, hs, hg, Bool.false_eq_true, if_false, ite_false]
          exact ih (index + 1) buf cc hcc
        | some gr =>
          by_cases hl : 0 < gr.reviews.length
          · by_cases hht : th ≤ cc + gr.reviews.length
            · simp only [runBGGCoordAux, hs, hg, hl, hht, Bool.false_eq_true, if_false,
                ite_false, if_true, ite_true]
              exact ih (index + 1) (buf ++ [gr]) 0 hth
            · simp only [runBGGCoordAux, hs, hg, hl, hht, Bool.false_eq_true, if_false,
                ite_false, if_true, ite_true]
              exact ih (index + 1) (buf ++ [gr]) (cc + gr.reviews.length) (by omega)
          · simp only [runBGGCoordAux, hs, hg, hl, Bool.false_eq_true, if_false, ite_false]
            exact ih (index + 1) buf cc hcc

/-- The TrustPilot coordinator preserves the property that every buffer
element has at least one review. -/
theorem tpCoordAux_all_pos (detect : String → DetectResult) :
    ∀ (ents : List (List TPPage)) (buf : List TPRes),
      (buf.all fun r => decide (0 < r.reviews.length)) = true →
      ((runTPCoordAux detect ents buf).1.all fun r => decide (0 < r.reviews.length)) = true := by
  intro ents
  induction ents with
  | nil => intro buf h; simpa [runTPCoordAux] using h
  | cons ent rest ih =>
    intro buf h
    cases hg : (get_business_reviews detect ent).1 with
    | raises => simpa [runTPCoordAux, hg] using h
    | outOfPages =>
      simp only [runTPCoordAux, hg]
      exact ih buf h
    | returns r =>
      by_cases hl : 0 < r.reviews.length
      · simp only [runTPCoordAux, hg, hl, if_true, ite_true]
        refine ih (buf ++ [r]) ?_
        rw [List.all_append]
        simp [h, hl]
      · simp only [runTPCoordAux, hg, hl, Bool.false_eq_true, if_false, ite_false]
        exact ih buf h

/-- The BoardGameGeek main loop preserves the property that every
buffer element has at least one review. -/
theorem bggCoordAux_all_pos (pf : String → Option ℚ) (detect : String → DetectResult)
    (rmk : String → String) (rp : Bool) (rIdx : Nat) (rIDs : List Nat) (th : Nat) :
    ∀ (ents : List BGGEntity) (index : Nat) (buf : List BGGRes) (cc : Nat),
      (buf.all fun r => decide (0 < r.reviews.length)) = true →
      ((runBGGCoordAux pf detect rmk rp rIdx rIDs th ents index buf cc).buffer.all
        fun r => decide (0 < r.reviews.length)) = true := by
  intro ents
  induction ents with
  | nil => intro index buf cc h; simpa [runBGGCoordAux] using h
  | cons e rest ih =>
    intro index buf cc h
    by_cases hs : bggSkip rp rIdx rIDs index e.id = true
    · simp only [runBGGCoordAux, hs, if_true, ite_true]
      exact ih (index + 1) buf cc h
    · cases hg : (getData pf detect rmk (some e.id) e.outs).1 with
      | outOfOutcomes =>
        simp only [runBGGCoordAux, hs, hg, Bool.false_eq_true, if_false, ite_false]
        exact ih (index + 1) buf cc h
      | ret r =>
        cases r with
        | none =>
          simp only [runBGGCoordAux, hs, hg, Bool.false_eq_true, if_false, ite_false]
          exact ih (index + 1) buf cc h
        | some gr =>
          by_cases hl : 0 < gr.reviews.length
          · have hbuf2 : ((buf ++ [gr]).all fun r => decide (0 < r.reviews.length)) = true := by
              rw [List.all_append]
              simp [h, hl]
            by_cases hht : th ≤ cc + gr.reviews.length
            · simp only [runBGGCoordAux, hs, hg, hl, hht, Bool.false_eq_true, if_false,
                ite_false, if_true, ite_true]
              exact ih (index + 1) (buf ++ [gr]) 0 hbuf2
            · simp only [runBGGCoordAux, hs, hg, hl, hht, Bool.false_eq_true, if_false,
                ite_false, if_true, ite_true]
              exact ih (index + 1) (buf ++ [gr]) (cc + gr.reviews.length) hbuf2
          · simp only [runBGGCoordAux, hs, hg, hl, Bool.false_eq_true, if_false, ite_false]
            exact ih (index + 1) buf cc h

/-! Claim theorems. -/

/-- C1 counterexample: the claim that both drivers always return a
ParentResult and never propagate a raw exception is false. When the
very first fetch of get_business_reviews raises, the loop breaks before
business_name was ever assigned and the return statement raises an
UnboundLocalError that propagates to the caller; and when a fetch in
getData raises a transport exception, getData returns None, which is
not a ParentResult. -/
theorem c1_counterexample :
    (runTPAux detEn [TPPage.fetchError] none []).1 = TPRun.raises
    ∧ (getData pfEx detEn rmkId (some 1) [APIOutcome.transportExc]).1 = BGGStatus.ret none :=
  ⟨rfl, rfl⟩

/-- C1 amended: getData never propagates an exception, and returns a
dict rather than None for every sequence of status and parse outcomes
in which no fetch raises a transport exception; get_business_reviews
returns a ParentResult whenever the business name has been assigned, so
it can only raise when no processed page ever supplied the name
element. -/
theorem c1_driver_totality_amended :
    (∀ (detect : String → DetectResult) (outs : List TPPage) (n : String) (acc : List TPRec),
      (runTPAux detect outs (some n) acc).1 ≠ TPRun.raises)
    ∧ (∀ (pf : String → Option ℚ) (detect : String → DetectResult) (rmk : String → String)
        (gid : Nat) (outs : List APIOutcome),
      (∀ o ∈ outs, o ≠ APIOutcome.transportExc) →
      (getData pf detect rmk (some gid) outs).1 ≠ BGGStatus.ret none) :=
  ⟨fun detect outs n acc => tp_returns_of_named detect outs n acc,
   fun pf detect rmk _ outs h =>
     bgg_ret_some_of_no_transport pf detect rmk outs h 1 0 NameVal.empty []⟩

/-- C1 witness: the amended theorem applied at concrete inputs. -/
theorem c1_driver_totality_amended_witness :
    (runTPAux detEn [TPPage.fetchError] (some "Biz") []).1 ≠ TPRun.raises
    ∧ (getData pfEx detEn rmkId (some 1) [APIOutcome.badStatus]).1 ≠ BGGStatus.ret none :=
  ⟨c1_driver_totality_amended.1 detEn [TPPage.fetchError] "Biz" [],
   c1_driver_totality_amended.2 pfEx detEn rmkId 1 [APIOutcome.badStatus] (by decide)⟩

/-- C2 counterexample: the claim that every driver makes exactly 3
fetch attempts before aborting when every page fetch fails is false for
the HTML driver: get_business_reviews breaks out of its loop on the
first requests exception, so a run in which every fetch fails makes
exactly one attempt, not three. -/
theorem c2_counterexample :
    (runTPAux detEn [TPPage.fetchError, TPPage.fetchError, TPPage.fetchError] none []).2 = 1
    ∧ (runTPAux detEn [TPPage.fetchError, TPPage.fetchError, TPPage.fetchError] none []).2 ≠ 3 :=
  ⟨rfl, by decide⟩

/-- C2 amended: for the API driver, when every fetch yields a bad
status or a page parse error, exactly 3 fetch attempts are made and the
run then ends returning the already gathered records (here the initial
empty state); the error counter is cumulative rather than reset by
successful pages, the HTML driver stops after a single failed attempt,
and a raised transport exception ends the API run at once with None. -/
theorem c2_api_three_attempts_amended (pf : String → Option ℚ)
    (detect : String → DetectResult) (rmk : String → String) (gid : Nat)
    (outs : List APIOutcome)
    (hfail : ∀ o ∈ outs, o = APIOutcome.badStatus ∨ o = APIOutcome.pageExc)
    (hlen : 3 ≤ outs.length) :
    getData pf detect rmk (some gid) outs
      = (BGGStatus.ret (some { game_name := NameVal.empty, reviews := [] }),
         [BGGAction.request 1, BGGAction.request 1, BGGAction.request 1]) := by
  rcases outs with _ | ⟨o1, outs⟩
  · simp at hlen
  rcases outs with _ | ⟨o2, outs⟩
  · simp at hlen
  rcases outs with _ | ⟨o3, rest⟩
  · simp at hlen
  have h1 := hfail o1 (by simp)
  have h2 := hfail o2 (by simp)
  have h3 := hfail o3 (by simp)
  rcases h1 with rfl | rfl <;> rcases h2 with rfl | rfl <;> rcases h3 with rfl | rfl <;>
    simp [getData, runBGGAux]

/-- C2 witness: the amended theorem applied at a concrete input. -/
theorem c2_api_three_attempts_amended_witness :
    getData pfEx detEn rmkId (some 1)
        [APIOutcome.badStatus, APIOutcome.pageExc, APIOutcome.badStatus]
      = (BGGStatus.ret (some { game_name := NameVal.empty, reviews := [] }),
         [BGGAction.request 1, BGGAction.request 1, BGGAction.request 1]) :=
  c2_api_three_attempts_amended pfEx detEn rmkId 1
    [APIOutcome.badStatus, APIOutcome.pageExc, APIOutcome.badStatus] (by decide) (by decide)

/-- C7: a candidate comment of the API source is eligible exactly when
its rating string converts to a number between 1 and 10 inclusive, and
an out of range rating such as 11 is skipped silently with no effect on
the other comments of the page: the page with ratings 11 and 7 keeps
only the record rated 7 and raises no error. -/
theorem c7_rating_range_filter :
    (∀ (pf : String → Option ℚ) (s : String),
      checkNumericRange pf (some s) 1 10 = true ↔ ∃ n, pf s = some n ∧ 1 ≤ n ∧ n ≤ 10)
    ∧ processComments pfEx detEn rmkId
        [{ rating := some "11", text := some "great game" },
         { rating := some "7", text := some "great game" }]
      = ([{ rating := "7", review_text := "great game" }], false) := by
  constructor
  · intro pf s
    constructor
    · intro h
      cases hp : pf s with
      | none => simp [checkNumericRange, hp] at h
      | some n =>
        simp only [checkNumericRange, hp, Bool.and_eq_true, decide_eq_true_eq] at h
        exact ⟨n, rfl, h.1, h.2⟩
    · rintro ⟨n, hp, h1, h2⟩
      simp [checkNumericRange, hp, h1, h2]
  · decide

/-- C10: in getData, after a fetch with a non success status while the
incremented error counter is still below the ceiling of 3, the next
action is the request of the same page number, with no rate limiter
sleep between the two requests and no advance of the page counter. -/
theorem c10_failed_fetch_retries_same_page (pf : String → Option ℚ)
    (detect : String → DetectResult) (rmk : String → String) (o2 : APIOutcome)
    (rest : List APIOutcome) (pg err : Nat) (nm : NameVal) (acc : List BGGRec)
    (h : err + 1 < 3) :
    ∃ t, (runBGGAux pf detect rmk (APIOutcome.badStatus :: o2 :: rest) pg err nm acc).2
        = BGGAction.request pg :: BGGAction.request pg :: t := by
  have hn : ¬ 3 ≤ err + 1 := by omega
  obtain ⟨t, ht⟩ := runBGGAux_trace_head pf detect rmk o2 rest pg (err + 1) nm acc
  exact ⟨t, by simp [runBGGAux, hn, ht]⟩

/-- C10 witness: the theorem applied at a concrete input. -/
theorem c10_failed_fetch_retries_same_page_witness :
    0 + 1 < 3
    ∧ ∃ t, (runBGGAux pfEx detEn rmkId [APIOutcome.badStatus, APIOutcome.badStatus]
        1 0 NameVal.empty []).2
        = BGGAction.request 1 :: BGGAction.request 1 :: t :=
  ⟨by decide,
   c10_failed_fetch_retries_same_page pfEx detEn rmkId APIOutcome.badStatus [] 1 0
     NameVal.empty [] (by decide)⟩

/-- C3 counterexample: the claim that in resume mode an entity is
skipped exactly when its index is before the cutoff AND its id is
outside the reprocess set is false. With cutoff 0 and an empty id set,
the claim says no entity is skipped, yet the loop skips the single
entity with id 5: the code combines the two conditions with an or, not
an and. -/
theorem c3_counterexample :
    (runBGGCoord pfEx detEn rmkId true 0 [] 100000 [{ id := 5, outs := [] }]).processed = []
    ∧ ¬ ((0 : Nat) < 0 ∧ (5 : Nat) ∉ ([] : List Nat)) :=
  ⟨rfl, by decide⟩

/-- C3 amended: in resume mode an entity is skipped exactly when its
index is before the cutoff OR its id is outside the reprocess set;
equivalently the processed entities are exactly the enumerated ones
whose index is at least the cutoff and whose id lies in the set. -/
theorem c3_reprocess_filter_amended (pf : String → Option ℚ) (detect : String → DetectResult)
    (rmk : String → String) (rIdx : Nat) (rIDs : List Nat) (th : Nat)
    (ents : List BGGEntity) :
    (runBGGCoord pf detect rmk true rIdx rIDs th ents).processed
      = ((ents.enumFrom 0).filter
          (fun p => decide (rIdx ≤ p.1) && rIDs.contains p.2.id)).map (fun p => p.2.id) := by
  have h := bggCoordAux_processed pf detect rmk true rIdx rIDs th ents 0 [] 0
  have hpred : ∀ p : Nat × BGGEntity,
      (!(bggSkip true rIdx rIDs p.1 p.2.id))
        = (decide (rIdx ≤ p.1) && rIDs.contains p.2.id) := by
    intro p
    by_cases h1 : p.1 < rIdx <;> by_cases h2 : rIDs.contains p.2.id = true <;>
      simp [bggSkip, h1, h2, Nat.not_lt, Nat.le_of_lt, Nat.lt_iff_add_one_le] <;> omega
  simp only [runBGGCoord]
  rw [h]
  congr 1
  exact List.filter_congr (fun p _ => hpred p)

/-- C4 counterexample: the claim that in every run of both coordinator
variants the buffer is flushed whenever the accepted record count since
the last flush reaches the threshold is false for the HTML variant: a
TrustPilot run that accepts two records, which reaches any threshold of
at most 2, still performs exactly one write, the final save, and never
a second flush. -/
theorem c4_counterexample :
    (runTPCoord detEn c4ents).flushes.length = 1
    ∧ ((runTPCoord detEn c4ents).buffer.map (fun r => r.reviews.length)).sum = 2
    ∧ ¬ 2 ≤ (runTPCoord detEn c4ents).flushes.length := by
  refine ⟨by decide, by decide, by decide⟩

/-- C4 amended: the API variant flushes the entire buffer, always as a
prefix snapshot of the final buffer, with one unconditional final
flush of the whole buffer, and with a positive threshold the count of
accepted records since the last flush stays below the threshold after
every entity; the HTML variant performs no periodic flush at all: on a
non crashed run its only write is the single final save of the whole
buffer. -/
theorem c4_flush_policy_amended :
    (∀ (pf : String → Option ℚ) (detect : String → DetectResult) (rmk : String → String)
        (rp : Bool) (rIdx : Nat) (rIDs : List Nat) (th : Nat) (ents : List BGGEntity),
      (runBGGCoord pf detect rmk rp rIdx rIDs th ents).flushes.getLast?
        = some (runBGGCoord pf detect rmk rp rIdx rIDs th ents).buffer)
    ∧ (∀ (pf : String → Option ℚ) (detect : String → DetectResult) (rmk : String → String)
        (rp : Bool) (rIdx : Nat) (rIDs : List Nat) (th : Nat) (ents : List BGGEntity)
        (f : List BGGRes),
      f ∈ (runBGGCoord pf detect rmk rp rIdx rIDs th ents).flushes →
      f <+: (runBGGCoord pf detect rmk rp rIdx rIDs th ents).buffer)
    ∧ (∀ (pf : String → Option ℚ) (detect : String → DetectResult) (rmk : String → String)
        (rp : Bool) (rIdx : Nat) (rIDs : List Nat) (th : Nat) (ents : List BGGEntity),
      0 < th → (runBGGCoord pf detect rmk rp rIdx rIDs th ents).checkCount < th)
    ∧ (∀ (detect : String → DetectResult) (ents : List (List TPPage)),
      (runTPCoord detect ents).crashed = false →
      (runTPCoord detect ents).flushes = [(runTPCoord detect ents).buffer]) := by
  refine ⟨?_, ?_, ?_, ?_⟩
  · intro pf detect rmk rp rIdx rIDs th ents
    simp only [runBGGCoord]
    exact List.getLast?_concat _
  · intro pf detect rmk rp rIdx rIDs th ents f hf
    simp only [runBGGCoord] at hf ⊢
    rw [List.mem_append] at hf
    rcases hf with hf | hf
    · exact bggCoordAux_flush_prefix pf detect rmk rp rIdx rIDs th ents 0 [] 0 f hf
    · rw [List.mem_singleton] at hf
      rw [hf]
  · intro pf detect rmk rp rIdx rIDs th ents hth
    simp only [runBGGCoord]
    exact bggCoordAux_cc_lt pf detect rmk rp rIdx rIDs th hth ents 0 [] 0 hth
  · intro detect ents h
    have h2 : (runTPCoordAux detect ents []).2 = false := by
      by_cases hb : (runTPCoordAux detect ents []).2 = true
      · simp [runTPCoord, hb] at h
      · simpa using hb
    simp [runTPCoord, h2]

/-- C4 witness: the amended theorem applied at concrete inputs. -/
theorem c4_flush_policy_amended_witness :
    (runBGGCoord pfEx detEn rmkId false 0 [] 1 []).flushes.getLast?
      = some (runBGGCoord pfEx detEn rmkId false 0 [] 1 []).buffer
    ∧ ([] : List BGGRes) <+: (runBGGCoord pfEx detEn rmkId false 0 [] 1 []).buffer
    ∧ (runBGGCoord pfEx detEn rmkId false 0 [] 1 []).checkCount < 1
    ∧ (runTPCoord detEn []).flushes = [(runTPCoord detEn []).buffer] :=
  ⟨c4_flush_policy_amended.1 pfEx detEn rmkId false 0 [] 1 [],
   c4_flush_policy_amended.2.1 pfEx detEn rmkId false 0 [] 1 [] [] (by decide),
   c4_flush_policy_amended.2.2.1 pfEx detEn rmkId false 0 [] 1 [] (by decide),
   c4_flush_policy_amended.2.2.2 detEn [] rfl⟩

/-- C5 counterexample: the claim that every language detection failure
is contained as a record rejection and never becomes a page level error
is false for the API variant: a comment with a valid rating 7 but
absent text reaches detect with None, whose TypeError is not a
LangDetectException and escapes the comment loop, so the page errs; in
a run this counts toward the error ceiling, aborting the page sequence
after three such pages. -/
theorem c5_counterexample :
    processComments pfEx detEn rmkId [{ rating := some "7", text := none }] = ([], true)
    ∧ (runBGGAux pfEx detEn rmkId
        [APIOutcome.parsed ["G"] [{ rating := some "7", text := none }],
         APIOutcome.badStatus, APIOutcome.badStatus] 1 0 NameVal.empty []).1
      = BGGStatus.ret (some { game_name := NameVal.captured ["G"], reviews := [] }) :=
  ⟨by decide, by decide⟩

/-- C5 amended: the API comment loop lets nothing escape to the page
level when the detector only ever answers with a language or a
LangDetectException and every comment carries text, and a
LangDetectException skips exactly the offending comment, leaving the
processing of the remaining comments unchanged; failures during page
fetch or parse, absent comment text, and any non LangDetectException
detector failure instead surface as page level errors. -/
theorem c5_detection_containment_amended :
    (∀ (pf : String → Option ℚ) (detect : String → DetectResult) (rmk : String → String)
        (cs : List BGGComment),
      (∀ s, detect s ≠ DetectResult.otherExc) → (∀ c ∈ cs, c.text ≠ none) →
      (processComments pf detect rmk cs).2 = false)
    ∧ (∀ (pf : String → Option ℚ) (detect : String → DetectResult) (rmk : String → String)
        (c : BGGComment) (rest : List BGGComment) (t : String),
      c.text = some t → detect (rmk t) = DetectResult.langExc →
      processComments pf detect rmk (c :: rest) = processComments pf detect rmk rest) :=
  ⟨processComments_no_escape, processComments_skip_langExc⟩

/-- C5 witness: the amended theorem applied at concrete inputs. -/
theorem c5_detection_containment_amended_witness :
    (processComments pfEx detEn rmkId [{ rating := some "7", text := some "great game" }]).2
      = false
    ∧ processComments pfEx det6 rmkId
        [{ rating := some "7", text := some "xx" }, { rating := some "7", text := some "ok" }]
      = processComments pfEx det6 rmkId [{ rating := some "7", text := some "ok" }] :=
  ⟨c5_detection_containment_amended.1 pfEx detEn rmkId
     [{ rating := some "7", text := some "great game" }]
     (fun s => by simp [detEn]) (by decide),
   c5_detection_containment_amended.2 pfEx det6 rmkId
     { rating := some "7", text := some "xx" } [{ rating := some "7", text := some "ok" }]
     "xx" rfl (by decide)⟩

/-- C6 counterexample: the claim that a record with both fields present
is admitted when at least one field detects as English, including when
detection on the other field fails, is false: when detection on the
title raises a LangDetectException the whole condition aborts before
the body is ever tested, so the record is rejected even though its body
detects as English. -/
theorem c6_counterexample :
    admitTP det6 { rating := some "5", title := some "xx", text := some "An English body" }
      = none
    ∧ det6 (pyStrip "An English body") = DetectResult.lang "en"
    ∧ pyStrip "An English body" ≠ "" :=
  ⟨by decide, by decide, by decide⟩

/-- C6 amended: with exactly one field present, admission holds exactly
when that field is non empty after trimming and detects as English;
with both fields present, a detection failure on the non empty title
rejects the record outright, while a title that detects as some
language other than English lets the body be tested, and the record is
admitted when the body detects as English. -/
theorem c6_admission_evaluation_amended :
    (∀ (detect : String → DetectResult) (rtg tl : String),
      ((admitTP detect { rating := some rtg, title := some tl, text := none }).isSome = true)
        ↔ (pyStrip tl ≠ "" ∧ detect (pyStrip tl) = DetectResult.lang "en"))
    ∧ (∀ (detect : String → DetectResult) (rtg tx : String),
      ((admitTP detect { rating := some rtg, title := none, text := some tx }).isSome = true)
        ↔ (pyStrip tx ≠ "" ∧ detect (pyStrip tx) = DetectResult.lang "en"))
    ∧ (∀ (detect : String → DetectResult) (rtg tl tx : String),
      pyStrip tl ≠ "" →
      (detect (pyStrip tl) = DetectResult.langExc
        ∨ detect (pyStrip tl) = DetectResult.otherExc) →
      admitTP detect { rating := some rtg, title := some tl, text := some tx } = none)
    ∧ (∀ (detect : String → DetectResult) (rtg tl tx l : String),
      pyStrip tl ≠ "" → detect (pyStrip tl) = DetectResult.lang l → l ≠ "en" →
      pyStrip tx ≠ "" → detect (pyStrip tx) = DetectResult.lang "en" →
      admitTP detect { rating := some rtg, title := some tl, text := some tx }
        = some { rating := rtg, review_title := some (pyStrip tl),
                 review_text := some (pyStrip tx) }) := by
  refine ⟨?_, ?_, ?_, ?_⟩
  · intro detect rtg tl
    by_cases he : pyStrip tl = ""
    · simp [admitTP, evalAdmitCond, evalRight, he]
    · cases hd : detect (pyStrip tl) with
      | lang l =>
        by_cases hl : l = "en"
        · simp [admitTP, evalAdmitCond, evalRight, he, hd, hl]
        · simp [admitTP, evalAdmitCond, evalRight, he, hd, hl]
      | langExc => simp [admitTP, evalAdmitCond, evalRight, he, hd]
      | otherExc => simp [admitTP, evalAdmitCond, evalRight, he, hd]
  · intro detect rtg tx
    by_cases he : pyStrip tx = ""
    · simp [admitTP, evalAdmitCond, evalRight, he]
    · cases hd : detect (pyStrip tx) with
      | lang l =>
        by_cases hl : l = "en"
        · simp [admitTP, evalAdmitCond, evalRight, he, hd, hl]
        · simp [admitTP, evalAdmitCond, evalRight, he, hd, hl]
      | langExc => simp [admitTP, evalAdmitCond, evalRight, he, hd]
      | otherExc => simp [admitTP, evalAdmitCond, evalRight, he, hd]
  · intro detect rtg tl tx he hd
    rcases hd with hd | hd <;> simp [admitTP, evalAdmitCond, he, hd]
  · intro detect rtg tl tx l he1 hd1 hl he2 hd2
    simp [admitTP, evalAdmitCond, evalRight, he1, hd1, hl, he2, hd2]

/-- C6 witness: the amended theorem applied at concrete inputs. -/
theorem c6_admission_evaluation_amended_witness :
    admitTP detFr { rating := some "5", title := some "tt", text := some "good" }
      = some { rating := "5", review_title := some (pyStrip "tt"),
               review_text := some (pyStrip "good") } :=
  c6_admission_evaluation_amended.2.2.2 detFr "5" "tt" "good" "fr"
    (by decide) (by decide) (by decide) (by decide) (by decide)

/-- C8 counterexample: the claim that both drivers capture the parent
display name from the first fetched page only, later pages leaving it
unchanged, is false for the HTML driver: the recapture guard tests
whether reviews_data is still empty, not whether the page is the first,
so a second page seen while no review has been accepted overwrites the
name captured on the first page. -/
theorem c8_counterexample :
    (runTPAux detEn
        [TPPage.page (some "NameA") [] true, TPPage.page (some "NameB") [] false] none []).1
      = TPRun.returns { business_name := "NameB", reviews := [] }
    ∧ "NameB" ≠ "NameA" :=
  ⟨by decide, by decide⟩

/-- C8 amended: the API driver captures the name only while the page
counter is 1, so from page 2 onward the returned name is exactly the
name held on entry; the HTML driver freezes the name only once
reviews_data is non empty: from then on the returned name is exactly
the name held on entry. -/
theorem c8_name_capture_amended :
    (∀ (pf : String → Option ℚ) (detect : String → DetectResult) (rmk : String → String)
        (outs : List APIOutcome) (pg err : Nat) (nm : NameVal) (acc : List BGGRec)
        (r : BGGRes), 2 ≤ pg →
      (runBGGAux pf detect rmk outs pg err nm acc).1 = BGGStatus.ret (some r) →
      r.game_name = nm)
    ∧ (∀ (detect : String → DetectResult) (outs : List TPPage) (n : String)
        (acc : List TPRec) (r : TPRes), acc ≠ [] →
      (runTPAux detect outs (some n) acc).1 = TPRun.returns r →
      r.business_name = n) :=
  ⟨fun pf detect rmk outs pg err nm acc r h1 h2 =>
     bgg_name_frozen pf detect rmk outs pg err nm acc r h1 h2,
   fun detect outs n acc r h1 h2 => tp_name_frozen detect outs n acc r h1 h2⟩

/-- C8 witness: the amended theorem applied at concrete inputs. -/
theorem c8_name_capture_amended_witness :
    ({ game_name := NameVal.captured ["X"], reviews := [] } : BGGRes).game_name
      = NameVal.captured ["X"]
    ∧ ({ business_name := "A",
         reviews := [{ rating := "5", review_title := none, review_text := none }] }
        : TPRes).business_name = "A" :=
  ⟨c8_name_capture_amended.1 pfEx detEn rmkId [APIOutcome.parsed ["G"] []] 2 0
     (NameVal.captured ["X"]) [] { game_name := NameVal.captured ["X"], reviews := [] }
     (by decide) (by decide),
   c8_name_capture_amended.2 detEn [TPPage.page (some "B") [] false] "A"
     [{ rating := "5", review_title := none, review_text := none }]
     { business_name := "A",
       reviews := [{ rating := "5", review_title := none, review_text := none }] }
     (by decide) (by decide)⟩

/-- C9: in both coordinator variants a parent result is appended to the
buffer only when its list of accepted records is non empty, so after
any run every element of the buffer holds at least one accepted
record. -/
theorem c9_buffer_elements_nonempty :
    (∀ (detect : String → DetectResult) (ents : List (List TPPage)),
      ((runTPCoord detect ents).buffer.all fun r => decide (0 < r.reviews.length)) = true)
    ∧ (∀ (pf : String → Option ℚ) (detect : String → DetectResult) (rmk : String → String)
        (rp : Bool) (rIdx : Nat) (rIDs : List Nat) (th : Nat) (ents : List BGGEntity),
      ((runBGGCoord pf detect rmk rp rIdx rIDs th ents).buffer.all
        fun r => decide (0 < r.reviews.length)) = true) :=
  ⟨fun detect ents => by
     simp only [runTPCoord]
     exact tpCoordAux_all_pos detect ents [] rfl,
   fun pf detect rmk rp rIdx rIDs th ents => by
     simp only [runBGGCoord]
     exact bggCoordAux_all_pos pf detect rmk rp rIdx rIDs th ents 0 [] 0 rfl⟩
